import Mathlib

/-!
Verification development for the `trivelle/worker` repository.

The repository supervises Linux child processes and multiplexes their
combined stdout/stderr to concurrent subscribers.  This file gives a
shallow embedding of the code under `src/` and proves or refutes the
frozen claims about it.

Conventions of the embedding:
* Go byte strings are `List Char` (output bytes are opaque; only the
  newline delimiter matters to the code).
* OS oracles (the spawn primitive `cmd.Start`, the kill primitive
  `Process.Kill`, the read of the per-process stat file) are passed in as
  explicit `Except`/`Option` arguments, since the code only branches on
  their results.
* A Go runtime panic (out-of-range slice) is modelled by `Option.none`
  in the result of the function that would panic.
* Mutex-protected regions of the output multiplexer become atomic actions
  of a small-step machine (`Act`/`step`); an execution of the concurrent
  code is a schedule, i.e. a list of actions, and `runMux` folds `step`
  over it.
-/

/-- Go `strings.IndexRune` restricted to ASCII content: index of the first
occurrence of `target` in `s`, or `-1` when absent (the Go function returns
a byte index; on the ASCII stat data handled here the two coincide). -/
def goIndexRune : List Char → Char → Int
  | [], _ => -1
  | c :: rest, target =>
    if c = target then 0
    else
      match goIndexRune rest target with
      | -1 => -1
      | r => r + 1

/-- Go slice expression `s[i:]` on a string: defined (`some`) when
`0 ≤ i ≤ len s`, and a runtime panic (`none`) otherwise. -/
def goSliceFrom (s : List Char) (i : Int) : Option (List Char) :=
  if i < 0 then none
  else if (s.length : Int) < i then none
  else some (s.drop i.toNat)

/-- Go `strings.Split(s, sep)` for a single-character separator: splits
around every occurrence of `sep`; the result always has at least one
element (Go returns `[""]` on the empty string). -/
def goSplitChar (s : List Char) (sep : Char) : List (List Char) :=
  match s with
  | [] => [[]]
  | c :: rest =>
    let r := goSplitChar rest sep
    if c = sep then [] :: r
    else
      match r with
      | [] => [[c]]
      | h :: t => (c :: h) :: t

namespace Process

/-- Embeds the `ProcessStatus` struct of
`src/lib/worker/process/process.go` (the two timestamp fields, which the
claims do not mention and which the source marks as unimplemented, are
omitted). -/
structure ProcessStatus where
  PID : Nat
  StartedBy : String
  State : String
deriving Repr, DecidableEq

/-- Embeds `Start` (process.go lines 44-56).  The receiver state
`p.cmd.Process != nil` is the Boolean `started`; the OS spawn primitive
`p.cmd.Start()` is the oracle `spawn` (in Go a failed `cmd.Start` leaves
`cmd.Process` nil, so the handle stays non-started on spawn failure).
Returns the new state of `cmd.Process` and the call result.  The body runs
under `p.mu`, so concurrent calls execute this function in some serial
order. -/
def Start (started : Bool) (spawn : Except String Unit) : Bool × Except String Unit :=
  if started then (started, Except.error "process already started")
  else
    match spawn with
    | Except.ok _ => (true, Except.ok ())
    | Except.error e => (false, Except.error e)

/-- Serialization of a finite sequence of `Start` calls on one handle:
the per-handle mutex makes any schedule of concurrent calls execute as
some such sequence.  Each list element is the spawn oracle result the
corresponding call would see if it reaches `cmd.Start()`. -/
def runStarts (started : Bool) : List (Except String Unit) → Bool × List (Except String Unit)
  | [] => (started, [])
  | spawn :: rest =>
    let r := Start started spawn
    let rs := runStarts r.1 rest
    (rs.1, r.2 :: rs.2)

/-- Number of successful results in a list of `Start`/`Stop` outcomes. -/
def okCount (rs : List (Except String Unit)) : Nat :=
  (rs.filter fun r => match r with | Except.ok _ => true | Except.error _ => false).length

/-- Embeds `Stop` (process.go lines 63-70): error when `cmd.Process` is
nil, otherwise the result of the OS kill primitive `p.cmd.Process.Kill()`
is returned unchanged (the oracle `killResult`).  The body runs under
`p.mu`. -/
def Stop (started : Bool) (killResult : Except String Unit) : Except String Unit :=
  if started = false then Except.error "process not started" else killResult

/-- Embeds `retrieveProcessState` (process.go lines 124-144).  The read of
`/proc/<pid>/stat` is the oracle `readResult`.  The outer `Option` models
a Go runtime panic in the slice expression `data[binStart+binEnd+2:]`;
`some (state, err)` models the normal `(string, error)` return, with
`none` for a nil error.  Note the source returns `"", nil` — not the read
error — when `ioutil.ReadFile` fails. -/
def retrieveProcessState (readResult : Except String (List Char)) :
    Option (String × Option String) :=
  match readResult with
  | Except.error _ => some ("", none)
  | Except.ok data =>
    let binStart : Int := goIndexRune data '(' + 1
    let tailFromBin : List Char := (goSliceFrom data binStart).getD []
    let binEnd : Int := goIndexRune tailFromBin ')'
    match goSliceFrom data (binStart + binEnd + 2) with
    | none => none
    | some rest =>
      match goSplitChar rest ' ' with
      | [] => some ("", some "malformed proc stat data")
      | state :: _ => some (String.mk state, none)

/-- The slice start index `binStart + binEnd + 2` that the source computes
before taking `data[binStart+binEnd+2:]`; the slice panics exactly when
this exceeds the length of the data (it is never negative). -/
def statSliceIdx (data : List Char) : Int :=
  let binStart : Int := goIndexRune data '(' + 1
  let tailFromBin : List Char := (goSliceFrom data binStart).getD []
  let binEnd : Int := goIndexRune tailFromBin ')'
  binStart + binEnd + 2

/-- Embeds `GetProcessStatus` (process.go lines 86-103): error when the
process was never started, otherwise builds the snapshot from
`retrieveProcessState`.  The outer `Option` propagates a parser panic. -/
def GetProcessStatus (started : Bool) (pid : Nat) (startedBy : String)
    (readResult : Except String (List Char)) : Option (Except String ProcessStatus) :=
  if started = false then some (Except.error "process not started")
  else
    match retrieveProcessState readResult with
    | none => none
    | some (_, some e) => some (Except.error e)
    | some (state, none) => some (Except.ok ⟨pid, startedBy, state⟩)

/-- Modelled from the spec: locate the end of the executable name by
finding the LAST right-parenthesis character in the content and return the
next whitespace-separated token as the state.  This is the parsing the
spec mandates (spec 4.2 and 6); it is stated here only to compare the
source parser against it. -/
def specStateAfterLastParen (data : List Char) : Option String :=
  match goLastIndexRune data ')' with
  | none => none
  | some i =>
    let afterName := (data.drop (i + 1)).dropWhile fun c => c = ' '
    let tok := afterName.takeWhile fun c => c ≠ ' '
    if tok = [] then none else some (String.mk tok)
where
  /-- Index of the last occurrence of `target`, if any. -/
  goLastIndexRune : List Char → Char → Option Nat
    | [], _ => none
    | c :: rest, target =>
      match goLastIndexRune rest target with
      | some i => some (i + 1)
      | none => if c = target then some 0 else none

end Process

namespace OutputHandler

/-- Side effects the producer loop `bufferAndForwardLines`
(src/lib/worker/output.go lines 172-187) performs, in program order:
`updateBuffer c` is the locked append of chunk `c` to `o.combinedBuffer`,
`message c` is the send of `c` on `o.messages`, and `errSend msg` is the
send of the raw read error on the `errorChan` argument — which in
`handleOutput` (lines 141-167) is a local channel that no goroutine
receives from (the source TODO on line 148 acknowledges this), so in the
running system an `errSend` blocks its producer forever. -/
inductive ProducerEffect where
  | updateBuffer (chunk : List Char)
  | message (chunk : List Char)
  | errSend (msg : String)
deriving Repr, DecidableEq

/-- Loop body of `bufferAndForwardLines`: `acc` is the data
`bufio.ReadBytes` has collected for the current chunk, `rest` the bytes
the underlying reader still has, `readFailure` the non-EOF error (if any)
the reader returns after its bytes are exhausted.  `ReadBytes` returns
`acc ++ ['\n']` with a nil error when it meets the delimiter, and returns
the pending `acc` together with `io.EOF` or the read error at
end-of-stream; in both of the latter cases the source breaks out of the
loop WITHOUT buffering or forwarding `acc`. -/
def bufferAndForwardLinesAux (acc : List Char) :
    List Char → Option String → List ProducerEffect
  | [], none => []
  | [], some e => [ProducerEffect.errSend e]
  | c :: rest, readFailure =>
    if c = '\n' then
      ProducerEffect.updateBuffer (acc ++ [c]) ::
        ProducerEffect.message (acc ++ [c]) ::
          bufferAndForwardLinesAux [] rest readFailure
    else
      bufferAndForwardLinesAux (acc ++ [c]) rest readFailure

/-- Embeds `bufferAndForwardLines` (output.go lines 172-187): the ordered
list of effects of draining one reader whose byte stream is `bytes`
followed by EOF (when `readFailure = none`) or by a fatal read error
(`readFailure = some e`). -/
def bufferAndForwardLines (bytes : List Char) (readFailure : Option String) :
    List ProducerEffect :=
  bufferAndForwardLinesAux [] bytes readFailure

/-- Chunks the producer sends on `o.messages`, in order. -/
def forwardedChunks (effects : List ProducerEffect) : List (List Char) :=
  effects.filterMap fun e =>
    match e with
    | ProducerEffect.message c => some c
    | _ => none

/-- Chunks the producer appends to `o.combinedBuffer`, in order. -/
def bufferedChunks (effects : List ProducerEffect) : List (List Char) :=
  effects.filterMap fun e =>
    match e with
    | ProducerEffect.updateBuffer c => some c
    | _ => none

/-- Raw errors the producer sends on the internal error channel. -/
def sentErrors (effects : List ProducerEffect) : List String :=
  effects.filterMap fun e =>
    match e with
    | ProducerEffect.errSend m => some m
    | _ => none

/-- State of the output multiplexer (output.go lines 35-49) as seen by one
distinguished subscriber S whose `AddListener` call we follow, next to the
shared fields:
* `buffer` is `o.combinedBuffer`;
* `done` tells whether the `o.done` channel has been closed;
* `joined` tells whether S has been appended to `o.listeners`;
* `sRecv` lists the `ProcessOutputEntry` contents received on the output
  channel `AddListener` returned to S, `sClosed` whether that channel has
  been closed, and `sErr` the events on the error channel returned to S
  (no statement in output.go ever sends on a `Listener`'s `errorChan`
  field, so no action of the machine below touches `sErr`);
* `pc` is the program counter of the goroutine `AddListener` spawned for
  S: 0 before the `bufferLen` test, 1 before the backlog send, 2 before
  the `select` on `o.done`, 3 before `o.addListener`, 4 when finished;
* `sawLen` records the result of the `o.bufferLen()` call. -/
structure MuxState where
  buffer : List Char
  done : Bool
  joined : Bool
  sRecv : List (List Char)
  sClosed : Bool
  sErr : List String
  pc : Nat
  sawLen : Nat
deriving Repr, DecidableEq

/-- Atomic actions of the multiplexer.  Each corresponds to one
mutex-protected region, one channel operation, or one `select` of
output.go, so an interleaving of its goroutines is a list of actions:
* `bufferLenCheck`: the locked `o.bufferLen()` read and the `> 0` test in
  `AddListener` (line 75);
* `sendBacklog`: the send `output <- ProcessOutputEntry{Content:
  o.combinedBuffer}` (line 76) — the buffer is read WITHOUT the lock at
  the moment of the send;
* `selectDone`: the `select` on `o.done` with a `default` branch (lines
  78-86): when done, close the output channel; otherwise fall through;
* `appendListener`: the locked `o.addListener` call (lines 92-96);
* `updateBuffer c`: a producer's locked `o.updateBuffer(c)` (lines
  98-102); producers run only while `o.done` is open;
* `broadcast c`: the broadcaster's locked `iterListeners` delivery of `c`
  to every listener currently in `o.listeners` (lines 125-128) — S
  receives `c` only if it has joined;
* `closeDone`: `close(o.done)` after `wg.Wait()` (lines 160-164);
* `closeListeners`: the broadcaster's locked close of the channels of the
  listeners in `o.listeners` on observing done (lines 129-133). -/
inductive Act where
  | bufferLenCheck
  | sendBacklog
  | selectDone
  | appendListener
  | updateBuffer (c : List Char)
  | broadcast (c : List Char)
  | closeDone
  | closeListeners
deriving Repr, DecidableEq

/-- One atomic action of the multiplexer; `none` when the action is not
enabled at this state (wrong program counter, or a producer action after
`done`). -/
def step (s : MuxState) (a : Act) : Option MuxState :=
  match a with
  | Act.bufferLenCheck =>
    if s.pc = 0 then
      some { s with sawLen := s.buffer.length,
                    pc := if 0 < s.buffer.length then 1 else 2 }
    else none
  | Act.sendBacklog =>
    if s.pc = 1 then some { s with sRecv := s.sRecv ++ [s.buffer], pc := 2 }
    else none
  | Act.selectDone =>
    if s.pc = 2 then
      if s.done then some { s with sClosed := true, pc := 4 }
      else some { s with pc := 3 }
    else none
  | Act.appendListener =>
    if s.pc = 3 then some { s with joined := true, pc := 4 } else none
  | Act.updateBuffer c =>
    if s.done then none else some { s with buffer := s.buffer ++ c }
  | Act.broadcast c =>
    if s.joined then some { s with sRecv := s.sRecv ++ [c] } else some s
  | Act.closeDone =>
    if s.done then none else some { s with done := true }
  | Act.closeListeners =>
    if s.done then
      if s.joined then some { s with sClosed := true } else some s
    else none

/-- Runs a schedule of atomic actions from a state; `none` when the
schedule is not a valid interleaving. -/
def runMux (s : MuxState) : List Act → Option MuxState
  | [] => some s
  | a :: rest =>
    match step s a with
    | none => none
    | some s1 => runMux s1 rest

/-- State at the moment a fresh `AddListener` call spawns its goroutine:
the log holds `buffer`, the done flag is `done`, and S has received
nothing, is not joined, and is at program counter 0. -/
def addListenerStart (buffer : List Char) (done : Bool) : MuxState :=
  ⟨buffer, done, false, [], false, [], 0, 0⟩

/-- State with the distinguished listener S already registered in
`o.listeners` (its `AddListener` goroutine finished, `pc = 4`), the log
empty and the stream still live: a currently-registered subscriber at the
moment a producer hits its read error. -/
def registeredListenerState : MuxState :=
  ⟨[], false, true, [], false, [], 4, 0⟩

/-- Invariant of the machine when the distinguished subscriber S calls
`AddListener` after the done flag is already set: the flag stays set, S
never reaches the `o.addListener` branch, and its received records are
determined by its program counter. -/
def postDoneInv (b : List Char) (s : MuxState) : Prop :=
  s.done = true ∧ s.joined = false ∧ s.buffer = b ∧ s.sErr = [] ∧ s.pc ≠ 3 ∧
  (s.pc = 0 → s.sRecv = [] ∧ s.sClosed = false) ∧
  (s.pc = 1 → s.sRecv = [] ∧ s.sClosed = false ∧ b ≠ []) ∧
  (s.pc = 2 → s.sRecv = (if b = [] then [] else [b]) ∧ s.sClosed = false) ∧
  (s.pc = 4 → s.sRecv = (if b = [] then [] else [b]) ∧ s.sClosed = true)

end OutputHandler

section GoIndexLemmas

/-- Go `strings.IndexRune` never returns less than `-1`. -/
theorem goIndexRune_ge_neg_one (s : List Char) (c : Char) :
    -1 ≤ goIndexRune s c := by
  induction s with
  | nil => simp [goIndexRune]
  | cons a rest ih =>
    simp only [goIndexRune]
    split
    · norm_num
    · split
      · norm_num
      · omega

end GoIndexLemmas

/-- C1.  The subscription critical section claimed by the spec does not
exist in the source: `AddListener` (output.go lines 70-90) takes the
backlog snapshot (an unlocked read of `o.combinedBuffer` at the send on
line 76) and joins the live listener set (`o.addListener`, lines 92-96) as
two separate steps, each mutex region released in between.  The schedule
below interleaves one producer chunk between the two: starting from a log
holding byte A, the new subscriber snapshots the backlog, a producer then
appends and the broadcaster delivers chunk B (to the listeners registered
at that moment, which do not include S), and only then does S join.  S
ends having received only ["A"] while the log is "AB" and its channel is
closed, so a chunk appended after the snapshot and before the join was
never delivered to S — the interleaving the claim says cannot exist. -/
theorem addListener_misses_chunk_between_snapshot_and_join :
    OutputHandler.runMux (OutputHandler.addListenerStart ['A'] false)
      [OutputHandler.Act.bufferLenCheck, OutputHandler.Act.sendBacklog,
       OutputHandler.Act.updateBuffer ['B'], OutputHandler.Act.broadcast ['B'],
       OutputHandler.Act.selectDone, OutputHandler.Act.appendListener,
       OutputHandler.Act.closeDone, OutputHandler.Act.closeListeners]
      = some (⟨['A', 'B'], true, true, [['A']], true, [], 4, 1⟩ : OutputHandler.MuxState)
    ∧ ¬ ['B'] ∈ ([['A']] : List (List Char)) := by
  constructor
  · rfl
  · decide

/-- C3 counterexample.  `Stop` (process.go lines 63-70) returns
`p.cmd.Process.Kill()` unchanged, so when the kill primitive reports the
process as already released the error is returned to the caller, not
suppressed: the call does not return success. -/
theorem Stop_propagates_already_released :
    Process.Stop true (Except.error "os: process already released")
      = Except.error "os: process already released"
    ∧ Process.Stop true (Except.error "os: process already released")
        ≠ Except.ok () := by
  refine ⟨rfl, ?_⟩
  intro h
  simp [Process.Stop] at h

/-- C3 as amended.  On a started handle `Stop` forwards the kill
primitive's result unchanged; in particular every call in a finite
sequence of stops returns success exactly when the OS kill reports success
each time (which is the common case, since the worker never reaps the
child), while an "os: process already released" error would be forwarded,
not suppressed. -/
theorem Stop_forwards_kill_result (kills : List (Except String Unit))
    (h : ∀ k ∈ kills, k = Except.ok ()) :
    (∀ r ∈ kills.map (Process.Stop true), r = Except.ok ())
    ∧ ∀ killResult, Process.Stop true killResult = killResult := by
  constructor
  · intro r hr
    rcases List.mem_map.mp hr with ⟨k, hk, rfl⟩
    rw [show Process.Stop true k = k from rfl]
    exact h k hk
  · intro k
    rfl

/-- Witness for the amended C3 theorem at the one-element sequence whose
kill succeeds. -/
theorem Stop_forwards_kill_result_witness :
    Process.Stop true (Except.ok ()) = Except.ok () :=
  (Stop_forwards_kill_result [Except.ok ()]
      (fun k hk => by rwa [List.mem_singleton] at hk)).1
    (Process.Stop true (Except.ok ()))
    (List.mem_map.mpr ⟨Except.ok (), List.mem_singleton.mpr rfl, rfl⟩)

/-- C4.  When the read of `/proc/<pid>/stat` fails,
`retrieveProcessState` (process.go line 128) returns `"", nil` — the read
error is dropped — so `GetProcessStatus` on a started handle returns a
`ProcessStatus` value with an empty `State` and a nil error instead of the
`StatusUnavailable` error the claim describes. -/
theorem GetProcessStatus_returns_status_on_read_failure :
    Process.GetProcessStatus true 42 "some_user"
        (Except.error "open /proc/42/stat: no such file or directory")
      = some (Except.ok (⟨42, "some_user", ""⟩ : Process.ProcessStatus))
    ∧ Process.retrieveProcessState
        (Except.error "open /proc/42/stat: no such file or directory")
      = some ("", none) := by
  exact ⟨rfl, rfl⟩

/-- C5.  A byte stream that ends without the newline delimiter — here the
ten bytes of "some error", the stderr stream of the repository's own
`TestOutputHandlerSuccess` — produces NO producer effects at all:
`bufferAndForwardLines` (output.go lines 174-186) breaks out of the loop
on `io.EOF` without buffering or forwarding the bytes `bufio.ReadBytes`
returned together with the error, so the partial final chunk is lost
rather than delivered as-is. -/
theorem bufferAndForwardLines_drops_partial_final_chunk :
    OutputHandler.bufferAndForwardLines ("some error".toList) none = []
    ∧ "some error".toList ≠ [] := by
  constructor
  · rfl
  · decide

/-- C9.  The source parser (process.go lines 133-135) moves past the
FIRST right parenthesis that follows the first left parenthesis, not the
last one: on stat content for an executable named "a)b" it returns the
right-parenthesis token instead of the state field R that the
last-parenthesis rule of the claim yields. -/
theorem retrieveProcessState_uses_first_paren :
    Process.retrieveProcessState (Except.ok ("42 (a)b) R 1 2".toList))
      = some (")", none)
    ∧ Process.specStateAfterLastParen ("42 (a)b) R 1 2".toList) = some "R" := by
  constructor
  · rfl
  · rfl

/-- C10 counterexample.  On empty stat content the source computes
`binStart = 0` and `binEnd = -1` and then takes the slice
`data[1:]` of a zero-length string, which is out of range: the parser
panics (modelled by `none`) instead of returning a pair. -/
theorem retrieveProcessState_panics_on_empty :
    Process.retrieveProcessState (Except.ok ("".toList)) = none := by
  rfl

/-- C10 as amended.  `retrieveProcessState` terminates and returns a
`(state, error)` pair without out-of-range slice access for exactly those
contents whose computed slice index `binStart + binEnd + 2` does not
exceed the content length; on the remaining contents — the empty string,
a lone right parenthesis, or content ending at its last parenthesis — the
slice `data[binStart+binEnd+2:]` is out of range and the code panics. -/
theorem retrieveProcessState_no_panic (data : List Char)
    (h : Process.statSliceIdx data ≤ (data.length : Int)) :
    Process.retrieveProcessState (Except.ok data) ≠ none := by
  have h1 := goIndexRune_ge_neg_one data '('
  have h2 := goIndexRune_ge_neg_one
    ((goSliceFrom data (goIndexRune data '(' + 1)).getD []) ')'
  have h0 : 0 ≤ Process.statSliceIdx data := by
    simp only [Process.statSliceIdx]
    omega
  have hidx : Process.statSliceIdx data < 0 ↔ False := by
    constructor
    · intro hc
      omega
    · intro hc
      exact hc.elim
  have hs : goSliceFrom data (Process.statSliceIdx data)
      = some (data.drop (Process.statSliceIdx data).toNat) := by
    simp only [goSliceFrom]
    rw [if_neg (by omega), if_neg (by omega)]
  have hrw : Process.retrieveProcessState (Except.ok data)
      = match goSliceFrom data (Process.statSliceIdx data) with
        | none => none
        | some rest =>
          match goSplitChar rest ' ' with
          | [] => some ("", some "malformed proc stat data")
          | state :: _ => some (String.mk state, none) := rfl
  rw [hrw, hs]
  cases hsplit : goSplitChar (data.drop (Process.statSliceIdx data).toNat) ' ' with
  | nil => simp [hsplit]
  | cons state rest => simp [hsplit]

/-- Witness for the amended C10 theorem on a well-formed stat line. -/
theorem retrieveProcessState_no_panic_witness :
    Process.retrieveProcessState (Except.ok ("42 (sleep) R 1".toList)) ≠ none :=
  retrieveProcessState_no_panic ("42 (sleep) R 1".toList) (by decide)

/-- No action of the multiplexer machine writes to the distinguished
listener's error channel: output.go contains no send on any `Listener`'s
`errorChan` field. -/
theorem step_preserves_sErr (s s1 : OutputHandler.MuxState)
    (a : OutputHandler.Act) (h : OutputHandler.step s a = some s1) :
    s1.sErr = s.sErr := by
  cases a <;> simp only [OutputHandler.step] at h <;> repeat' split at h
  all_goals cases h <;> rfl

/-- Running any schedule leaves the listener's error channel untouched. -/
theorem runMux_preserves_sErr (sched : List OutputHandler.Act) :
    ∀ s s1 : OutputHandler.MuxState,
      OutputHandler.runMux s sched = some s1 → s1.sErr = s.sErr := by
  induction sched with
  | nil =>
    intro s s1 h
    simp only [OutputHandler.runMux] at h
    cases h
    rfl
  | cons a rest ih =>
    intro s s1 h
    simp only [OutputHandler.runMux] at h
    cases hstep : OutputHandler.step s a with
    | none => rw [hstep] at h; cases h
    | some s2 =>
      rw [hstep] at h
      exact (ih s2 s1 h).trans (step_preserves_sErr s s2 a hstep)

/-- C2.  In the source, a fatal read error never reaches a subscriber:
the producer (`bufferAndForwardLines`, output.go lines 179-182) sends the
RAW reader error — not a message containing "failed to read output" — on
the `errorChan` argument, which in `handleOutput` (line 151) is a local
channel that no goroutine receives from (the TODO on lines 148-150
acknowledges this), so the effect list for the erroring reader of
`TestOutputHandlerError` is a single raw internal send; the wrapped
message required by the claim is not an infix of it; and along every
schedule of the multiplexer machine a registered subscriber's error
channel stays empty, receiving zero errors rather than exactly one. -/
theorem read_error_never_reaches_subscriber :
    OutputHandler.bufferAndForwardLines [] (some "errorReader returns errors")
      = [OutputHandler.ProducerEffect.errSend "errorReader returns errors"]
    ∧ OutputHandler.sentErrors
        (OutputHandler.bufferAndForwardLines [] (some "errorReader returns errors"))
      = ["errorReader returns errors"]
    ∧ ¬ "failed to read output".toList <:+: "errorReader returns errors".toList
    ∧ ∀ (sched : List OutputHandler.Act) (s1 : OutputHandler.MuxState),
        OutputHandler.runMux OutputHandler.registeredListenerState sched = some s1 →
        s1.sErr = [] := by
  refine ⟨rfl, rfl, by decide, ?_⟩
  intro sched s1 h
  exact runMux_preserves_sErr sched OutputHandler.registeredListenerState s1 h

/-- Witness for the C2 theorem: along the one-producer-step schedule the
registered subscriber's error channel has received nothing. -/
theorem read_error_never_reaches_subscriber_witness :
    (⟨['x'], false, true, [['x']], false, [], 4, 0⟩ :
        OutputHandler.MuxState).sErr = [] :=
  read_error_never_reaches_subscriber.2.2.2
    [OutputHandler.Act.updateBuffer ['x'], OutputHandler.Act.broadcast ['x']]
    ⟨['x'], false, true, [['x']], false, [], 4, 0⟩ rfl

/-- Once a handle is started, every further `Start` call fails with the
already-started error. -/
theorem runStarts_after_success (xs : List (Except String Unit)) :
    Process.runStarts true xs
      = (true, xs.map fun _ => Except.error "process already started") := by
  induction xs with
  | nil => rfl
  | cons x rest ih =>
    simp [Process.runStarts, Process.Start, ih]

/-- A successful outcome at the head adds one to the success count. -/
theorem okCount_cons_ok (u : Unit) (l : List (Except String Unit)) :
    Process.okCount (Except.ok u :: l) = Process.okCount l + 1 := by
  simp [Process.okCount, List.filter]

/-- A failed outcome at the head leaves the success count unchanged. -/
theorem okCount_cons_error (e : String) (l : List (Except String Unit)) :
    Process.okCount (Except.error e :: l) = Process.okCount l := by
  simp [Process.okCount, List.filter]

/-- A run that begins on a started handle produces no successes. -/
theorem okCount_runStarts_after_success (xs : List (Except String Unit)) :
    Process.okCount (Process.runStarts true xs).2 = 0 := by
  rw [runStarts_after_success]
  induction xs with
  | nil => rfl
  | cons x rest ih =>
    rw [List.map_cons, okCount_cons_error]
    exact ih

/-- C6.  `Start` (process.go lines 44-56) runs under `p.mu`, so a
schedule of N concurrent calls executes as a serial sequence; when the OS
spawn primitive succeeds (the claim's setting, scenario S5), the first
serialized call succeeds and every other call returns the
"process already started" error, and — for arbitrary spawn outcomes —
no sequence of calls on one handle ever contains two successes. -/
theorem Start_succeeds_exactly_once (n : Nat) (hn : 1 ≤ n) :
    (Process.runStarts false (List.replicate n (Except.ok ()))).2
      = Except.ok () :: List.replicate (n - 1) (Except.error "process already started")
    ∧ ∀ spawns : List (Except String Unit),
        Process.okCount (Process.runStarts false spawns).2 ≤ 1 := by
  constructor
  · obtain ⟨m, rfl⟩ : ∃ m, n = m + 1 := ⟨n - 1, by omega⟩
    rw [List.replicate_succ]
    have h1 : Process.runStarts false (Except.ok () :: List.replicate m (Except.ok ()))
        = ((Process.runStarts true (List.replicate m (Except.ok ()))).1,
           Except.ok () :: (Process.runStarts true (List.replicate m (Except.ok ()))).2) := by
      simp [Process.runStarts, Process.Start]
    rw [h1, runStarts_after_success]
    simp [List.map_replicate]
  · intro spawns
    induction spawns with
    | nil => simp [Process.runStarts, Process.okCount]
    | cons x rest ih =>
      cases x with
      | ok u =>
        have h1 : Process.runStarts false (Except.ok u :: rest)
            = ((Process.runStarts true rest).1,
               Except.ok () :: (Process.runStarts true rest).2) := by
          simp [Process.runStarts, Process.Start]
        rw [h1]
        simp [okCount_cons_ok, okCount_runStarts_after_success]
      | error e =>
        have h1 : Process.runStarts false (Except.error e :: rest)
            = ((Process.runStarts false rest).1,
               Except.error e :: (Process.runStarts false rest).2) := by
          simp [Process.runStarts, Process.Start]
        rw [h1, okCount_cons_error]
        exact ih

/-- Witness for the C6 theorem at three concurrent calls. -/
theorem Start_succeeds_exactly_once_witness :
    (Process.runStarts false (List.replicate 3 (Except.ok ()))).2
      = Except.ok () :: List.replicate 2 (Except.error "process already started") :=
  (Start_succeeds_exactly_once 3 (by norm_num)).1

/-- Every enabled action preserves the post-done invariant: once the done
flag is set it stays set, producers are no longer enabled, the
`select` in `AddListener` always takes the done branch, and the
subscriber never joins the listener set. -/
theorem step_preserves_postDoneInv {b : List Char}
    {s s1 : OutputHandler.MuxState} {a : OutputHandler.Act}
    (hinv : OutputHandler.postDoneInv b s)
    (h : OutputHandler.step s a = some s1) :
    OutputHandler.postDoneInv b s1 := by
  obtain ⟨hdone, hjoin, hbuf, herr, hpc3, hp0, hp1, hp2, hp4⟩ := hinv
  cases a with
  | bufferLenCheck =>
    simp only [OutputHandler.step] at h
    split at h
    · rename_i hpc0
      cases h
      obtain ⟨hr, hc⟩ := hp0 hpc0
      by_cases hb : 0 < s.buffer.length
      · have hbne : b ≠ [] := by
          rw [← hbuf]
          intro hnil
          rw [hnil] at hb
          simp at hb
        refine ⟨hdone, hjoin, hbuf, herr, ?_, ?_, ?_, ?_, ?_⟩ <;>
          simp only [hb, if_pos] <;> intro hpc <;> simp_all
      · refine ⟨hdone, hjoin, hbuf, herr, ?_, ?_, ?_, ?_, ?_⟩ <;>
          simp only [hb, if_neg, if_false] <;> intro hpc <;> simp_all
    · cases h
  | sendBacklog =>
    simp only [OutputHandler.step] at h
    split at h
    · rename_i hpc1
      cases h
      obtain ⟨hr, hc, hbne⟩ := hp1 hpc1
      refine ⟨hdone, hjoin, hbuf, herr, ?_, ?_, ?_, ?_, ?_⟩ <;>
        intro hpc <;> simp_all
    · cases h
  | selectDone =>
    simp only [OutputHandler.step] at h
    repeat' split at h
    all_goals try cases h
    all_goals first
      | exact absurd hdone (by assumption)
      | (refine ⟨hdone, hjoin, hbuf, herr, ?_, ?_, ?_, ?_, ?_⟩ <;>
          intro hpc <;> simp_all)
  | appendListener =>
    simp only [OutputHandler.step] at h
    split at h
    · rename_i hpcEq
      exact absurd hpcEq hpc3
    · cases h
  | updateBuffer c =>
    simp only [OutputHandler.step] at h
    split at h
    · cases h
    · rename_i hnd
      exact absurd hdone hnd
  | broadcast c =>
    simp only [OutputHandler.step] at h
    split at h
    · rename_i hj
      rw [hjoin] at hj
      cases hj
    · cases h
      exact ⟨hdone, hjoin, hbuf, herr, hpc3, hp0, hp1, hp2, hp4⟩
  | closeDone =>
    simp only [OutputHandler.step] at h
    split at h
    · cases h
    · rename_i hnd
      exact absurd hdone hnd
  | closeListeners =>
    simp only [OutputHandler.step] at h
    split at h
    · split at h
      · rename_i hj
        rw [hjoin] at hj
        cases hj
      · cases h
        exact ⟨hdone, hjoin, hbuf, herr, hpc3, hp0, hp1, hp2, hp4⟩
    · rename_i hnd
      exact absurd hdone hnd

/-- Running any valid schedule preserves the post-done invariant. -/
theorem runMux_preserves_postDoneInv (b : List Char)
    (sched : List OutputHandler.Act) :
    ∀ s s1 : OutputHandler.MuxState, OutputHandler.postDoneInv b s →
      OutputHandler.runMux s sched = some s1 →
      OutputHandler.postDoneInv b s1 := by
  induction sched with
  | nil =>
    intro s s1 hinv h
    simp only [OutputHandler.runMux] at h
    cases h
    exact hinv
  | cons a rest ih =>
    intro s s1 hinv h
    simp only [OutputHandler.runMux] at h
    cases hstep : OutputHandler.step s a with
    | none => rw [hstep] at h; cases h
    | some s2 =>
      rw [hstep] at h
      exact ih s2 s1 (step_preserves_postDoneInv hinv hstep) h

/-- C7.  A subscriber whose `AddListener` call starts after the done flag
is set — so after every producer has exited, since `handleOutput` closes
`o.done` only after `wg.Wait()` — receives, in every interleaving in
which its goroutine runs to completion (`pc = 4`), exactly one initial
record holding the entire accumulated log when the log is non-empty and
zero records when it is empty, after which its output channel is closed;
it never joins the live set (the `select` on the closed `o.done` channel
always takes the done branch), so the broadcaster cannot strand it and
its error channel stays empty. -/
theorem addListener_after_done (b : List Char)
    (sched : List OutputHandler.Act) (s1 : OutputHandler.MuxState)
    (hrun : OutputHandler.runMux (OutputHandler.addListenerStart b true) sched
      = some s1)
    (hfin : s1.pc = 4) :
    s1.sRecv = (if b = [] then [] else [b])
    ∧ s1.sClosed = true ∧ s1.joined = false ∧ s1.sErr = [] := by
  have hinit : OutputHandler.postDoneInv b (OutputHandler.addListenerStart b true) := by
    refine ⟨rfl, rfl, rfl, rfl, ?_, ?_, ?_, ?_, ?_⟩ <;>
      intro hpc <;> simp_all [OutputHandler.addListenerStart]
  have hinv := runMux_preserves_postDoneInv b sched
    (OutputHandler.addListenerStart b true) s1 hinit hrun
  obtain ⟨_, hjoin, _, herr, _, _, _, _, hp4⟩ := hinv
  obtain ⟨hr, hc⟩ := hp4 hfin
  exact ⟨hr, hc, hjoin, herr⟩

/-- Witness for the C7 theorem: one subscriber arriving after done with
log "x" and the three-step schedule of its goroutine. -/
theorem addListener_after_done_witness :
    (⟨['x'], true, false, [['x']], true, [], 4, 1⟩ :
        OutputHandler.MuxState).sRecv
      = (if (['x'] : List Char) = [] then [] else [['x']])
    ∧ (⟨['x'], true, false, [['x']], true, [], 4, 1⟩ :
        OutputHandler.MuxState).sClosed = true
    ∧ (⟨['x'], true, false, [['x']], true, [], 4, 1⟩ :
        OutputHandler.MuxState).joined = false
    ∧ (⟨['x'], true, false, [['x']], true, [], 4, 1⟩ :
        OutputHandler.MuxState).sErr = [] :=
  addListener_after_done ['x']
    [OutputHandler.Act.bufferLenCheck, OutputHandler.Act.sendBacklog,
     OutputHandler.Act.selectDone]
    (⟨['x'], true, false, [['x']], true, [], 4, 1⟩ : OutputHandler.MuxState)
    rfl rfl

/-- Chunks forwarded by the producer loop always end with the newline
delimiter, whatever the accumulator and remaining bytes. -/
theorem forwardedChunks_aux_newline (bytes : List Char) :
    ∀ (acc : List Char) (readFailure : Option String) (c : List Char),
      c ∈ OutputHandler.forwardedChunks
        (OutputHandler.bufferAndForwardLinesAux acc bytes readFailure) →
      c.getLast? = some '\n' := by
  induction bytes with
  | nil =>
    intro acc readFailure c hc
    cases readFailure <;>
      simp [OutputHandler.bufferAndForwardLinesAux,
        OutputHandler.forwardedChunks] at hc
  | cons ch rest ih =>
    intro acc readFailure c hc
    simp only [OutputHandler.bufferAndForwardLinesAux] at hc
    by_cases hch : ch = '\n'
    · rw [if_pos hch] at hc
      simp only [OutputHandler.forwardedChunks, List.filterMap_cons] at hc
      simp only [hch] at hc
      rcases List.mem_cons.mp hc with hceq | hcrest
      · rw [hceq]
        exact List.getLast?_concat _
      · exact ih [] readFailure c hcrest
    · rw [if_neg hch] at hc
      exact ih (acc ++ [ch]) readFailure c hc

/-- The producer buffers exactly the chunks it forwards, in the same
order. -/
theorem bufferedChunks_aux_eq_forwarded (bytes : List Char) :
    ∀ (acc : List Char) (readFailure : Option String),
      OutputHandler.bufferedChunks
          (OutputHandler.bufferAndForwardLinesAux acc bytes readFailure)
        = OutputHandler.forwardedChunks
          (OutputHandler.bufferAndForwardLinesAux acc bytes readFailure) := by
  induction bytes with
  | nil =>
    intro acc readFailure
    cases readFailure <;>
      simp [OutputHandler.bufferAndForwardLinesAux,
        OutputHandler.bufferedChunks, OutputHandler.forwardedChunks]
  | cons ch rest ih =>
    intro acc readFailure
    simp only [OutputHandler.bufferAndForwardLinesAux]
    by_cases hch : ch = '\n'
    · rw [if_pos hch]
      have h2 := ih [] readFailure
      simp only [OutputHandler.bufferedChunks, OutputHandler.forwardedChunks,
        List.filterMap_cons] at h2 ⊢
      rw [h2]
    · rw [if_neg hch]
      exact ih (acc ++ [ch]) readFailure

/-- C8 counterexample.  On the seven-byte stream "hi\nbye\n" the
producer forwards the chunks "hi\n" and "bye\n": the first forwarded
chunk has length 3, not 76, and it is not a partial final chunk at EOF
(it ends in the delimiter and is not last), so chunks are not fixed-size
76-byte reads. -/
theorem bufferAndForwardLines_chunk_not_76 :
    OutputHandler.forwardedChunks
        (OutputHandler.bufferAndForwardLines ("hi\nbye\n".toList) none)
      = [['h', 'i', '\n'], ['b', 'y', 'e', '\n']]
    ∧ ¬ ([('h' : Char), 'i', '\n'].length = 76) := by
  constructor
  · rfl
  · decide

/-- C8 as amended.  Each reader is drained by one dedicated producer
that reads variable-length chunks delimited by the newline byte
(`bufio.ReadBytes('\n')`, output.go line 175): every chunk the producer
appends to the log and forwards ends with the newline delimiter — the
final unterminated segment at EOF is dropped, not forwarded (see C5) —
and the chunks appended to the log are exactly the chunks forwarded, in
order.  No fixed 76-byte chunk size appears in the source. -/
theorem bufferAndForwardLines_newline_chunks (bytes : List Char)
    (readFailure : Option String) (c : List Char)
    (hc : c ∈ OutputHandler.forwardedChunks
      (OutputHandler.bufferAndForwardLines bytes readFailure)) :
    c.getLast? = some '\n'
    ∧ OutputHandler.bufferedChunks
        (OutputHandler.bufferAndForwardLines bytes readFailure)
      = OutputHandler.forwardedChunks
        (OutputHandler.bufferAndForwardLines bytes readFailure) :=
  ⟨forwardedChunks_aux_newline bytes [] readFailure c hc,
   bufferedChunks_aux_eq_forwarded bytes [] readFailure⟩

/-- Witness for the amended C8 theorem on the stream "a\n". -/
theorem bufferAndForwardLines_newline_chunks_witness :
    ([('a' : Char), '\n'].getLast? = some '\n')
    ∧ OutputHandler.bufferedChunks
        (OutputHandler.bufferAndForwardLines ("a\n".toList) none)
      = OutputHandler.forwardedChunks
        (OutputHandler.bufferAndForwardLines ("a\n".toList) none) :=
  bufferAndForwardLines_newline_chunks ("a\n".toList) none ['a', '\n']
    (by decide)
